import Mathlib

/-!
Verification of the retrieval-and-fusion scoring engine of a multi-signal
document ranking system (Wikipedia search engine).

Embedding conventions:
* `DocumentId` is `ℕ`; score values live in a `LinearOrderedField α`
  (instantiated at `ℚ` for concrete evaluation and at `ℝ` where properties of
  the natural logarithm matter); float arithmetic is modelled exactly.
* Python dicts / `defaultdict`s of scores are association lists
  `List (ℕ × α)` built by `bump` (`scores[d] += v`).
* The posting source is a function `String → Option (List (ℕ × ℕ))` (or with
  `α` frequencies after the `float` conversion); `none` models a raised
  exception or an absent term, which the per-term workers treat fail-soft.
* `math.log` is abstracted as a function parameter `lg`; structural facts are
  proved for every `lg` and the `Real.log` instantiation is used for facts
  that depend on the logarithm itself.
* Thread-pool fan-out is modelled by folding the per-term partial maps into
  the accumulator; the resulting mapping does not depend on completion order.
-/

namespace WikiSearch

/-! ### Association-list score maps (Python dict / defaultdict) -/

/-- Lookup in an association list (first binding wins), Python `dict.get(d)`. -/
def alookup {β : Type*} (m : List (ℕ × β)) (d : ℕ) : Option β :=
  match m with
  | [] => none
  | (k, v) :: rest => if k = d then some v else alookup rest d

/-- `scores[d] += v` on a `defaultdict` whose default is zero. -/
def bump {β : Type*} [Add β] (m : List (ℕ × β)) (d : ℕ) (v : β) : List (ℕ × β) :=
  match m with
  | [] => [(d, v)]
  | (k, w) :: rest => if k = d then (k, w + v) :: rest else (k, w) :: bump rest d v

/-- `score_map.get(d, 0.0)`. -/
def getOrZero {β : Type*} [Zero β] (m : List (ℕ × β)) (d : ℕ) : β :=
  (alookup m d).getD 0

/-! ### Ranking order

Python sorts ranked lists with key `(-score, doc_id)` ascending, and the
hybrid engine selects with `heapq.nlargest` and key `(score, -doc_id)`; both
orders put the larger score first and break ties by the smaller document id. -/

/-- `x` is ranked no later than `y`: larger score first, ascending doc id on
ties. -/
def RankBefore {α : Type*} [LinearOrder α] (x y : ℕ × α) : Prop :=
  y.2 < x.2 ∨ (x.2 = y.2 ∧ x.1 ≤ y.1)

instance {α : Type*} [LinearOrder α] : DecidableRel (RankBefore (α := α)) := fun x y =>
  inferInstanceAs (Decidable (y.2 < x.2 ∨ (x.2 = y.2 ∧ x.1 ≤ y.1)))

instance {α : Type*} [LinearOrder α] : IsTotal (ℕ × α) (RankBefore (α := α)) := by
  constructor
  intro x y
  rcases lt_trichotomy x.2 y.2 with h | h | h
  · exact Or.inr (Or.inl h)
  · rcases Nat.le_total x.1 y.1 with hn | hn
    · exact Or.inl (Or.inr ⟨h, hn⟩)
    · exact Or.inr (Or.inr ⟨h.symm, hn⟩)
  · exact Or.inl (Or.inl h)

instance {α : Type*} [LinearOrder α] : IsTrans (ℕ × α) (RankBefore (α := α)) := by
  constructor
  intro x y z hxy hyz
  rcases hxy with h1 | ⟨h1, h1n⟩
  · rcases hyz with h2 | ⟨h2, _⟩
    · exact Or.inl (h2.trans h1)
    · exact Or.inl (h2 ▸ h1)
  · rcases hyz with h2 | ⟨h2, h2n⟩
    · exact Or.inl (h1 ▸ h2)
    · exact Or.inr ⟨h1.trans h2, h1n.trans h2n⟩

/-- `sorted(items, key=lambda x: (-x[1], x[0]))`. -/
def sortRanked {α : Type*} [LinearOrder α] (l : List (ℕ × α)) : List (ℕ × α) :=
  l.insertionSort RankBefore

/-- `heapq.nlargest(top_k, items, key=lambda x: (x[1], -x[0]))`: the `top_k`
largest by (score, −doc id), i.e. the first `top_k` entries of the fully
ranked list; a non-positive `top_k` selects nothing. -/
def topKSelect {α : Type*} [LinearOrder α] (k : ℤ) (items : List (ℕ × α)) : List (ℕ × α) :=
  (sortRanked items).take k.toNat

/-! ### MatchCountScorer (`anchor_module.py`, class `AnchorModule`)

The scorer used for the title and anchor signals: posting lists are fetched
per distinct query term and merged additively. -/

/-- `AnchorModule._dedupe_terms`: drop falsy (empty) terms and duplicates,
preserving first-occurrence order; `seen` accumulates the terms kept so far. -/
def dedupeGo (seen : List String) : List String → List String
  | [] => []
  | t :: ts => if t = "" ∨ t ∈ seen then dedupeGo seen ts else t :: dedupeGo (t :: seen) ts

/-- Deduplicated query term list. -/
def dedupeTerms (qts : List String) : List String :=
  dedupeGo [] qts

/-- `AnchorModule._term_to_docs_dict`: fetch the posting list of one term;
`none` models a raised read exception (fail-soft empty contribution).  Note
that the code returns the raw `(doc_id, tf)` pairs (`return pl`), not
`(doc_id, 1)` as its docstring describes. -/
def termToDocsDict (postings : String → Option (List (ℕ × ℕ))) (term : String) :
    List (ℕ × ℕ) :=
  match postings term with
  | none => []
  | some pl => pl

/-- Merge loop of `AnchorModule.search`: `scores[doc_id] += tf` over every
posting of every distinct term. -/
def anchorScoreMap (postings : String → Option (List (ℕ × ℕ))) (qts : List String) :
    List (ℕ × ℕ) :=
  (dedupeTerms qts).foldl
    (fun m t => (termToDocsDict postings t).foldl (fun acc p => bump acc p.1 p.2) m) []

/-- `AnchorModule.search`: merged scores sorted by (value desc, doc id asc). -/
def anchorSearch (postings : String → Option (List (ℕ × ℕ))) (qts : List String) :
    List (ℕ × ℕ) :=
  sortRanked (anchorScoreMap postings qts)

/-! ### BodyScorer (`body_module.py`)

Two ranking modes: BM25/BM25+ (`search_bm25` / `_bm25_term_contrib`) and a
cosine-style TF-IDF variant (`search` / `_score_term_contrib`).  `N` is the
corpus size, `dfOf` the document-frequency table of the index, `invLen` and
`docNorm` the metadata lookups `get_inv_doc_len_body` / `get_doc_norm_body`. -/

section Body

variable {α : Type*} [LinearOrderedField α]

/-- BM25 idf: `math.log(1.0 + (self.N - df + 0.5) / (df + 0.5))`. -/
def bm25Idf (lg : α → α) (N df : ℕ) : α :=
  lg (1 + ((N : α) - (df : α) + 1 / 2) / ((df : α) + 1 / 2))

/-- `BodyModule._bm25_term_contrib`: the per-term BM25 worker.  A term with
`df ≤ 0` contributes nothing, a failed or empty posting read contributes
nothing, a posting is skipped when `invLen ≤ 0` or when the BM25 denominator
is not positive, and otherwise `out[doc] += idf * base` (or
`idf * (base + delta)` in BM25+ mode). -/
def bm25TermContrib (lg : α → α) (N df : ℕ) (invLen : ℕ → α)
    (postings : Option (List (ℕ × α))) (avgdl k1 b : α) (usePlus : Bool) (delta : α) :
    List (ℕ × α) :=
  if df ≤ 0 then []
  else
    match postings with
    | none => []
    | some pl =>
      pl.foldl (fun out p =>
        let tf := p.2
        let invL := invLen p.1
        if invL ≤ 0 then out
        else
          let dl := 1 / invL
          let nrm := (1 - b) + b * (dl / avgdl)
          let denom := tf + k1 * nrm
          if denom ≤ 0 then out
          else
            let base := tf * (k1 + 1) / denom
            let score := if usePlus then bm25Idf lg N df * (base + delta)
                         else bm25Idf lg N df * base
            bump out p.1 score) []

/-- Merge stage of `BodyModule.search_bm25`: the per-term partial maps of the
distinct query terms, accumulated with `scores[doc_id] += s`.  (The thread
pool's completion order only permutes the association list, never the
resulting mapping.) -/
def bm25Aggregate (lg : α → α) (N : ℕ) (dfOf : String → ℕ) (invLen : ℕ → α)
    (postings : String → Option (List (ℕ × α))) (avgdl k1 b : α) (usePlus : Bool)
    (delta : α) (qTerms : List String) : List (ℕ × α) :=
  qTerms.dedup.foldl
    (fun m t =>
      (bm25TermContrib lg N (dfOf t) invLen (postings t) avgdl k1 b usePlus delta).foldl
        (fun acc p => bump acc p.1 p.2) m) []

/-- `BodyModule.search_bm25`: empty query → empty; `avgdl ≤ 0` → empty;
otherwise aggregate, sort by (score desc, doc asc) and cut to `topK` when
`topK > 0` (Python `if top_k and top_k > 0`). -/
def searchBm25 (lg : α → α) (N : ℕ) (dfOf : String → ℕ) (invLen : ℕ → α)
    (postings : String → Option (List (ℕ × α))) (avgdl : α) (qTerms : List String)
    (topK : ℤ) (k1 b : α) (usePlus : Bool) (delta : α) : List (ℕ × α) :=
  if qTerms = [] then []
  else if avgdl ≤ 0 then []
  else
    let scores := bm25Aggregate lg N dfOf invLen postings avgdl k1 b usePlus delta qTerms
    if scores = [] then []
    else
      let ranked := sortRanked scores
      if 0 < topK then ranked.take topK.toNat else ranked

/-- Smoothed TF-IDF idf: `math.log((self.N + 1.0) / (df + 1.0))`. -/
def tfidfIdf (lg : α → α) (N df : ℕ) : α :=
  lg (((N : α) + 1) / ((df : α) + 1))

/-- `BodyModule._score_term_contrib`: the per-term cosine-style TF-IDF worker.
`qtf` is the query term frequency; postings with `invLen = 0` or
`docNorm = 0` are skipped, otherwise
`out[doc] += qw * (tf_norm * idf) / doc_norm` with `qw = float(qtf)`. -/
def scoreTermContrib (lg : α → α) (N df qtf : ℕ) (invLen docNorm : ℕ → α)
    (postings : Option (List (ℕ × α))) : List (ℕ × α) :=
  if df ≤ 0 then []
  else
    match postings with
    | none => []
    | some pl =>
      pl.foldl (fun out p =>
        let invL := invLen p.1
        if invL = 0 then out
        else
          let dn := docNorm p.1
          if dn = 0 then out
          else
            let tfNorm := p.2 * invL
            let dw := tfNorm * tfidfIdf lg N df
            bump out p.1 ((qtf : α) * dw / dn)) []

/-- `BodyModule.search` (TF-IDF mode): the query is counted (not deduplicated)
with `Counter`, each distinct term is dispatched with its multiplicity
`q_tf[term]`, and the merged map is sorted and cut like `search_bm25`. -/
def searchTfIdf (lg : α → α) (N : ℕ) (dfOf : String → ℕ) (invLen docNorm : ℕ → α)
    (postings : String → Option (List (ℕ × α))) (qTerms : List String) (topK : ℤ) :
    List (ℕ × α) :=
  if qTerms = [] then []
  else
    let scores := qTerms.dedup.foldl
      (fun m t =>
        (scoreTermContrib lg N (dfOf t) (qTerms.count t) invLen docNorm (postings t)).foldl
          (fun acc p => bump acc p.1 p.2) m) []
    if scores = [] then []
    else
      let ranked := sortRanked scores
      if 0 < topK then ranked.take topK.toNat else ranked

end Body

/-! ### SignalNormalizer and HybridFusionEngine (`search_engine.py`, `SearchEngine.search`) -/

section Fusion

variable {α : Type*} [LinearOrderedField α]

/-- `SearchEngine.search._minmax_norm`: empty map → empty map; all values
equal → every candidate maps to `0.0`; otherwise `(v - min) / (max - min)`. -/
def minmaxNorm (m : List (ℕ × α)) : List (ℕ × α) :=
  match m with
  | [] => []
  | (k0, v0) :: rest =>
    let mn := (rest.map Prod.snd).foldl min v0
    let mx := (rest.map Prod.snd).foldl max v0
    if mx = mn then ((k0, v0) :: rest).map (fun p => (p.1, 0))
    else ((k0, v0) :: rest).map (fun p => (p.1, (p.2 - mn) / (mx - mn)))

/-- The five signal weights of the hybrid engine. -/
structure Weights (α : Type*) where
  body : α
  title : α
  anchor : α
  pagerank : α
  pageviews : α

/-- The engine's built-in default weights. -/
def defaultWeights : Weights ℚ :=
  ⟨3 / 2, 3 / 5, 1 / 4, 1 / 10, 1 / 2⟩

/-- Stage-2 metadata maps: `{d: f(d) for d in candidates}` (the authority map
`log1p(pagerank)` and the popularity map, both with fail-soft `0.0`, are
abstracted as the function `f`). -/
def buildMetaMap (f : ℕ → α) (ids : List ℕ) : List (ℕ × α) :=
  ids.map fun d => (d, f d)

/-- Candidate set: the union of the document ids of the three stage-1 signal
maps (`set(body) | set(title) | set(anchor)`). -/
def candidateSet (bodyS titleS anchorS : List (ℕ × α)) : List ℕ :=
  (bodyS.map Prod.fst ++ titleS.map Prod.fst ++ anchorS.map Prod.fst).dedup

/-- The fused-score loop: for every candidate,
`final[d] = w_body * n_body.get(d, 0.0) + ... + w_pageviews * n_pv.get(d, 0.0)`. -/
def finalScoreMap (w : Weights α) (nb nt na npr npv : List (ℕ × α)) (cands : List ℕ) :
    List (ℕ × α) :=
  cands.map fun d =>
    (d, w.body * getOrZero nb d + w.title * getOrZero nt d + w.anchor * getOrZero na d
        + w.pagerank * getOrZero npr d + w.pageviews * getOrZero npv d)

/-- `title_ranked[:title_k]` under Python truthiness
(`if title_k and title_k > 0`). -/
def truncateRanked {β : Type*} (k : ℤ) (l : List β) : List β :=
  if 0 < k then l.take k.toNat else l

/-- Normalization-and-fusion stage of `SearchEngine.search`, from the three
stage-1 signal maps: build the candidate set, compute the stage-2 metadata
maps over exactly the candidates, min-max normalize all five signals,
combine with the weights and select the top `topK`. -/
def hybridFuse (w : Weights α) (bodyS titleS anchorS : List (ℕ × α)) (pr pv : ℕ → α)
    (topK : ℤ) : List (ℕ × α) :=
  let cands := candidateSet bodyS titleS anchorS
  if cands = [] then []
  else
    topKSelect topK
      (finalScoreMap w (minmaxNorm bodyS) (minmaxNorm titleS) (minmaxNorm anchorS)
        (minmaxNorm (buildMetaMap pr cands)) (minmaxNorm (buildMetaMap pv cands)) cands)

/-- `SearchEngine.search`, fan-out stage onward: the three stage-1 scorer
outcomes are collected with `future.result()`, which re-raises a scorer's
exception (`Except.error`); on success the title and anchor rankings are
truncated, fused with the metadata signals, and materialized with titles. -/
def hybridSearch (w : Weights α) (bodyRes titleRes anchorRes : Except Unit (List (ℕ × α)))
    (pr pv : ℕ → α) (titleK anchorK topK : ℤ) (titleOf : ℕ → String) :
    Except Unit (List (ℕ × String)) :=
  match bodyRes with
  | .error e => .error e
  | .ok bodyS =>
    match titleRes with
    | .error e => .error e
    | .ok titleS =>
      match anchorRes with
      | .error e => .error e
      | .ok anchorS =>
        .ok ((hybridFuse w bodyS (truncateRanked titleK titleS)
              (truncateRanked anchorK anchorS) pr pv topK).map
          fun p => (p.1, titleOf p.1))

end Fusion

/-! ## Helper lemmas -/

section Helpers

variable {α : Type*}

theorem foldl_min_le_init [LinearOrder α] (l : List α) (x : α) : l.foldl min x ≤ x := by
  induction l generalizing x with
  | nil => exact le_rfl
  | cons a t ih => exact (ih (min x a)).trans (min_le_left x a)

theorem foldl_min_le_mem [LinearOrder α] {l : List α} {a : α} (h : a ∈ l) (x : α) :
    l.foldl min x ≤ a := by
  induction l generalizing x with
  | nil => cases h
  | cons b t ih =>
    rcases List.mem_cons.mp h with rfl | hb
    · exact (foldl_min_le_init t (min x a)).trans (min_le_right x a)
    · exact ih hb (min x b)

theorem le_foldl_min [LinearOrder α] {l : List α} {y : α} (hl : ∀ a ∈ l, y ≤ a) {x : α}
    (hx : y ≤ x) : y ≤ l.foldl min x := by
  induction l generalizing x with
  | nil => exact hx
  | cons b t ih =>
    exact ih (fun a ha => hl a (List.mem_cons_of_mem b ha))
      (le_min hx (hl b (List.mem_cons_self b t)))

theorem init_le_foldl_max [LinearOrder α] (l : List α) (x : α) : x ≤ l.foldl max x := by
  induction l generalizing x with
  | nil => exact le_rfl
  | cons a t ih => exact (le_max_left x a).trans (ih (max x a))

theorem mem_le_foldl_max [LinearOrder α] {l : List α} {a : α} (h : a ∈ l) (x : α) :
    a ≤ l.foldl max x := by
  induction l generalizing x with
  | nil => cases h
  | cons b t ih =>
    rcases List.mem_cons.mp h with rfl | hb
    · exact (le_max_right x a).trans (init_le_foldl_max t (max x a))
    · exact ih hb (max x b)

theorem foldl_max_le [LinearOrder α] {l : List α} {y : α} (hl : ∀ a ∈ l, a ≤ y) {x : α}
    (hx : x ≤ y) : l.foldl max x ≤ y := by
  induction l generalizing x with
  | nil => exact hx
  | cons b t ih =>
    exact ih (fun a ha => hl a (List.mem_cons_of_mem b ha))
      (max_le hx (hl b (List.mem_cons_self b t)))

theorem alookup_map_value {β γ : Type*} (f : β → γ) (m : List (ℕ × β)) (d : ℕ) :
    alookup (m.map fun p => (p.1, f p.2)) d = (alookup m d).map f := by
  induction m with
  | nil => rfl
  | cons p t ih =>
    by_cases h : p.1 = d
    · simp [alookup, h]
    · simp [alookup, h, ih]

theorem alookup_map_key (g : ℕ → α) (l : List ℕ) (d : ℕ) (h : d ∈ l) :
    alookup (l.map fun c => (c, g c)) d = some (g d) := by
  induction l with
  | nil => cases h
  | cons c t ih =>
    by_cases hc : c = d
    · subst hc; simp [alookup]
    · rcases List.mem_cons.mp h with rfl | hd
      · exact absurd rfl hc
      · simp [alookup, hc, ih hd]

/-- `minmaxNorm` only rescales values: it is a value-map over the input. -/
theorem minmaxNorm_eq_map [LinearOrderedField α] (m : List (ℕ × α)) :
    ∃ f : α → α, minmaxNorm m = m.map fun p => (p.1, f p.2) := by
  match m with
  | [] => exact ⟨id, rfl⟩
  | (k0, v0) :: rest =>
    unfold minmaxNorm
    by_cases h : (rest.map Prod.snd).foldl max v0 = (rest.map Prod.snd).foldl min v0
    · exact ⟨fun _ => 0, by simp [h]⟩
    · refine ⟨fun v => (v - (rest.map Prod.snd).foldl min v0) /
        ((rest.map Prod.snd).foldl max v0 - (rest.map Prod.snd).foldl min v0), by simp [h]⟩

/-- A document absent from a raw signal map is absent from its normalization. -/
theorem getOrZero_minmax_absent [LinearOrderedField α] (m : List (ℕ × α)) (d : ℕ)
    (h : alookup m d = none) : getOrZero (minmaxNorm m) d = 0 := by
  obtain ⟨f, hf⟩ := minmaxNorm_eq_map m
  rw [getOrZero, hf, alookup_map_value, h]
  rfl

/-- A candidate whose raw metadata value is `0` in an everywhere-nonnegative
metadata signal normalizes to `0` (either via the degenerate all-equal branch
or because `0` is the minimum). -/
theorem getOrZero_minmax_zero_at [LinearOrderedField α] (f : ℕ → α) (cands : List ℕ)
    (d : ℕ) (hd : d ∈ cands) (h0 : f d = 0) (hnn : ∀ c, 0 ≤ f c) :
    getOrZero (minmaxNorm (buildMetaMap f cands)) d = 0 := by
  cases cands with
  | nil => cases hd
  | cons c0 cs =>
    have hlook : alookup (buildMetaMap f (c0 :: cs)) d = some (f d) :=
      alookup_map_key f (c0 :: cs) d hd
    have hvals : ∀ a ∈ ((cs.map fun c => (c, f c)).map Prod.snd), 0 ≤ a := by
      intro a ha
      rcases List.mem_map.mp ha with ⟨q, hq, rfl⟩
      rcases List.mem_map.mp hq with ⟨c, _, rfl⟩
      exact hnn c
    have hmn0 : (0 : α) ≤ ((cs.map fun c => (c, f c)).map Prod.snd).foldl min (f c0) :=
      le_foldl_min hvals (hnn c0)
    have hmnfd : ((cs.map fun c => (c, f c)).map Prod.snd).foldl min (f c0) ≤ f d := by
      rcases List.mem_cons.mp hd with rfl | hdc
      · exact foldl_min_le_init _ _
      · exact foldl_min_le_mem
          (List.mem_map.mpr ⟨(d, f d), List.mem_map.mpr ⟨d, hdc, rfl⟩, rfl⟩) _
    have hmn : ((cs.map fun c => (c, f c)).map Prod.snd).foldl min (f c0) = 0 :=
      le_antisymm (h0 ▸ hmnfd) hmn0
    have hb : buildMetaMap f (c0 :: cs) = (c0, f c0) :: (cs.map fun c => (c, f c)) := rfl
    rw [getOrZero, hb]
    simp only [minmaxNorm]
    by_cases hcase : ((cs.map fun c => (c, f c)).map Prod.snd).foldl max (f c0) =
        ((cs.map fun c => (c, f c)).map Prod.snd).foldl min (f c0)
    · rw [if_pos hcase, alookup_map_value (fun _ => (0 : α)), ← hb, hlook]
      rfl
    · rw [if_neg hcase,
        alookup_map_value (fun v =>
          (v - ((cs.map fun c => (c, f c)).map Prod.snd).foldl min (f c0)) /
            (((cs.map fun c => (c, f c)).map Prod.snd).foldl max (f c0) -
              ((cs.map fun c => (c, f c)).map Prod.snd).foldl min (f c0))),
        ← hb, hlook, hmn, h0]
      simp

/-- Closed-form value of a guarded single-posting BM25 evaluation, shared by
the claims about the BM25 formula and its monotonicity. -/
theorem bm25_single_eval [LinearOrderedField α] (lg : α → α) (N df d : ℕ)
    (invLen : ℕ → α) (tf avgdl k1 b delta : α) (usePlus : Bool)
    (hdf : 0 < df) (hinv : 0 < invLen d)
    (hden : 0 < tf + k1 * ((1 - b) + b * ((1 / invLen d) / avgdl))) :
    alookup (bm25TermContrib lg N df invLen (some [(d, tf)]) avgdl k1 b usePlus delta) d =
      some (bm25Idf lg N df *
        (tf * (k1 + 1) / (tf + k1 * ((1 - b) + b * ((1 / invLen d) / avgdl)))
          + if usePlus then delta else 0)) := by
  have hdf0 : ¬ df ≤ 0 := by omega
  have hden' : ¬ tf + k1 * (1 - b + b * ((invLen d)⁻¹ / avgdl)) ≤ 0 := by
    simpa [one_div] using hden.not_le
  cases usePlus with
  | false => simp [bm25TermContrib, bump, alookup, hdf0, hinv.not_le, hden']
  | true => simp [bm25TermContrib, bump, alookup, hdf0, hinv.not_le, hden']

/-- The keys of the fused map are exactly the candidate list. -/
theorem finalScoreMap_keys [LinearOrderedField α] (w : Weights α)
    (nb nt na npr npv : List (ℕ × α)) (cands : List ℕ) :
    (finalScoreMap w nb nt na npr npv cands).map Prod.fst = cands := by
  simp only [finalScoreMap, List.map_map]
  exact List.map_id cands

/-- Top-K selection over items with pairwise-distinct document ids: the
result is sorted strictly (score descending, doc id ascending on ties), has
at most `k` entries and selects only input items. -/
theorem topKSelect_spec {γ : Type*} [LinearOrder γ] (k : ℤ) (items : List (ℕ × γ))
    (hnd : (items.map Prod.fst).Nodup) :
    List.Pairwise (fun x y : ℕ × γ => y.2 < x.2 ∨ (x.2 = y.2 ∧ x.1 < y.1))
      (topKSelect k items) ∧
    (topKSelect k items).length ≤ k.toNat ∧
    ∀ p ∈ topKSelect k items, p ∈ items := by
  have hperm : List.Perm (sortRanked items) items := List.perm_insertionSort RankBefore items
  have hsorted : List.Pairwise RankBefore (sortRanked items) :=
    List.sorted_insertionSort RankBefore items
  have hnd' : ((sortRanked items).map Prod.fst).Nodup :=
    ((hperm.map Prod.fst).nodup_iff).mpr hnd
  have hne : List.Pairwise (fun x y : ℕ × γ => x.1 ≠ y.1) (sortRanked items) :=
    List.pairwise_map.mp hnd'
  have hstrict : List.Pairwise (fun x y : ℕ × γ => y.2 < x.2 ∨ (x.2 = y.2 ∧ x.1 < y.1))
      (sortRanked items) := by
    refine (hsorted.and hne).imp ?_
    rintro x y ⟨hr | ⟨heq, hle⟩, hxy⟩
    · exact Or.inl hr
    · exact Or.inr ⟨heq, lt_of_le_of_ne hle hxy⟩
  refine ⟨hstrict.sublist (List.take_sublist _ _), ?_, ?_⟩
  · rw [topKSelect, List.length_take]
    exact min_le_left _ _
  · intro p hp
    exact hperm.subset ((List.take_sublist _ _).subset hp)

end Helpers

/-! ## Claim theorems -/

/-- Claim C1 (refuted by the code): with query `["a"]` and the posting list of
`"a"` being `[(7, 3)]` — document 7 contains the term with in-field frequency
3 — the match-count scorer returns score 3 for document 7, i.e. the raw term
frequency, not weight 1 per distinct matched term as specified (and as the
module's own docstrings state). -/
theorem anchor_scores_tf_not_presence :
    anchorSearch (fun t => if t = "a" then some [(7, 3)] else none) ["a"] = [(7, 3)] ∧
    (3 : ℕ) ≠ 1 := by
  exact ⟨rfl, by decide⟩

/-- Claim C3: for a term with `df > 0` and a posting that passes the
`invDocLen > 0` and denominator guards, the BM25 contribution to the document
is `ln(1 + (N - df + 0.5)/(df + 0.5)) * (tf * (k1 + 1)) / (tf + k1 * ((1 - b)
+ b * (1/invDocLen)/avgdl))`, with `delta` added to the base factor before the
idf multiplication in BM25+ mode; a term with `df ≤ 0` contributes nothing and
postings failing either guard are skipped. -/
theorem bm25_term_contribution {α : Type*} [LinearOrderedField α] (lg : α → α) (N df d : ℕ)
    (invLen : ℕ → α) (tf avgdl k1 b delta : α) (usePlus : Bool) :
    (0 < df → 0 < invLen d →
      0 < tf + k1 * ((1 - b) + b * ((1 / invLen d) / avgdl)) →
      alookup (bm25TermContrib lg N df invLen (some [(d, tf)]) avgdl k1 b usePlus delta) d =
        some (lg (1 + ((N : α) - (df : α) + 1 / 2) / ((df : α) + 1 / 2)) *
          (tf * (k1 + 1) / (tf + k1 * ((1 - b) + b * ((1 / invLen d) / avgdl)))
            + if usePlus then delta else 0))) ∧
    (df = 0 →
      bm25TermContrib lg N df invLen (some [(d, tf)]) avgdl k1 b usePlus delta = []) ∧
    (invLen d ≤ 0 →
      bm25TermContrib lg N df invLen (some [(d, tf)]) avgdl k1 b usePlus delta = []) ∧
    (tf + k1 * ((1 - b) + b * ((1 / invLen d) / avgdl)) ≤ 0 →
      bm25TermContrib lg N df invLen (some [(d, tf)]) avgdl k1 b usePlus delta = []) := by
  refine ⟨fun hdf hinv hden => ?_, fun h => by simp [bm25TermContrib, h], ?_, ?_⟩
  · have hdf0 : ¬ df ≤ 0 := by omega
    have hden' : ¬ tf + k1 * (1 - b + b * ((invLen d)⁻¹ / avgdl)) ≤ 0 := by
      simpa [one_div] using hden.not_le
    cases usePlus with
    | false => simp [bm25TermContrib, bump, alookup, bm25Idf, hdf0, hinv.not_le, hden']
    | true => simp [bm25TermContrib, bump, alookup, bm25Idf, hdf0, hinv.not_le, hden']
  · intro h
    by_cases hdf : df ≤ 0 <;> simp [bm25TermContrib, hdf, h]
  · intro h
    have h' : tf + k1 * (1 - b + b * ((invLen d)⁻¹ / avgdl)) ≤ 0 := by
      simpa [one_div] using h
    by_cases hdf : df ≤ 0
    · simp [bm25TermContrib, hdf]
    · by_cases hinv : invLen d ≤ 0
      · simp [bm25TermContrib, hdf, hinv]
      · simp [bm25TermContrib, hdf, hinv, h']

/-- Witness for C3: the formula evaluated at the spec's own scenario numbers
(`N = 10`, `df = 2`, posting `(5, 3)`, `avgdl = 500`, `dl = 500`, `k1 = 1.8`,
`b = 0.1`, standard BM25). -/
theorem bm25_term_contribution_witness :
    alookup (bm25TermContrib (α := ℚ) id 10 2 (fun _ => 1 / 500) (some [(5, 3)]) 500 (9 / 5)
        (1 / 10) false 1) 5 =
      some (id (1 + (((10 : ℕ) : ℚ) - ((2 : ℕ) : ℚ) + 1 / 2) / (((2 : ℕ) : ℚ) + 1 / 2)) *
        (3 * (9 / 5 + 1) / (3 + 9 / 5 * ((1 - 1 / 10) + 1 / 10 * ((1 / (1 / 500)) / 500)))
          + if false then 1 else 0)) :=
  (bm25_term_contribution id 10 2 5 (fun _ => 1 / 500) 3 500 (9 / 5) (1 / 10) 1 false).1
    (by norm_num) (by norm_num) (by norm_num)

/-- Claim C4: in cosine-style TF-IDF mode, a posting that passes the
`invDocLen ≠ 0` and `docNorm ≠ 0` guards contributes
`(qtf * (tf * invDocLen(doc)) * ln((N + 1)/(df + 1))) / docNorm(doc)`, where
`qtf` is the term's multiplicity `count` in the non-deduplicated query;
postings failing either guard are skipped, not errors. -/
theorem tfidf_term_contribution {α : Type*} [LinearOrderedField α] (lg : α → α) (N df d : ℕ)
    (qTerms : List String) (t : String) (invLen docNorm : ℕ → α) (tf : α) :
    (0 < df → invLen d ≠ 0 → docNorm d ≠ 0 →
      alookup (scoreTermContrib lg N df (qTerms.count t) invLen docNorm (some [(d, tf)])) d =
        some (((qTerms.count t : ℕ) : α) * (tf * invLen d) *
          lg (((N : α) + 1) / ((df : α) + 1)) / docNorm d)) ∧
    (invLen d = 0 →
      scoreTermContrib lg N df (qTerms.count t) invLen docNorm (some [(d, tf)]) = []) ∧
    (docNorm d = 0 →
      scoreTermContrib lg N df (qTerms.count t) invLen docNorm (some [(d, tf)]) = []) := by
  refine ⟨fun hdf hinv hdn => ?_, ?_, ?_⟩
  · have hdf0 : ¬ df ≤ 0 := by omega
    have e1 : scoreTermContrib lg N df (qTerms.count t) invLen docNorm (some [(d, tf)]) =
        [(d, ((qTerms.count t : ℕ) : α) * (tf * invLen d * tfidfIdf lg N df) / docNorm d)] := by
      simp only [scoreTermContrib, if_neg hdf0, List.foldl_cons, List.foldl_nil,
        if_neg hinv, if_neg hdn]
      rfl
    rw [e1]
    have e2 : alookup
        [(d, ((qTerms.count t : ℕ) : α) * (tf * invLen d * tfidfIdf lg N df) / docNorm d)] d =
        some (((qTerms.count t : ℕ) : α) * (tf * invLen d * tfidfIdf lg N df) / docNorm d) := by
      simp [alookup]
    rw [e2]
    simp only [tfidfIdf]
    congr 1
    ring
  · intro h
    by_cases hdf : df ≤ 0 <;> simp [scoreTermContrib, hdf, h]
  · intro h
    by_cases hdf : df ≤ 0
    · simp [scoreTermContrib, hdf]
    · by_cases hinv : invLen d = 0 <;> simp [scoreTermContrib, hdf, hinv, h]

/-- Witness for C4: query `["w", "q", "w"]` gives term `"w"` multiplicity 2,
and the contribution formula evaluated at `N = 100`, `df = 4`,
posting `(3, 5)`, `invDocLen = 1/20`, `docNorm = 7`. -/
theorem tfidf_term_contribution_witness :
    alookup (scoreTermContrib (α := ℚ) id 100 4 (["w", "q", "w"].count "w")
        (fun _ => 1 / 20) (fun _ => 7) (some [(3, 5)])) 3 =
      some (((["w", "q", "w"].count "w" : ℕ) : ℚ) * (5 * (1 / 20)) *
        id ((((100 : ℕ) : ℚ) + 1) / (((4 : ℕ) : ℚ) + 1)) / 7) :=
  (tfidf_term_contribution id 100 4 3 ["w", "q", "w"] "w" (fun _ => 1 / 20) (fun _ => 7) 5).1
    (by norm_num) (by norm_num) (by norm_num)

/-- Claim C8: in BM25 mode, if the average body document length is `≤ 0` the
whole query returns empty — for every query, every posting source and every
parameter setting, so no term is evaluated and no error is raised. -/
theorem bm25_degenerate_avgdl {α : Type*} [LinearOrderedField α] (lg : α → α) (N : ℕ)
    (dfOf : String → ℕ) (invLen : ℕ → α) (postings : String → Option (List (ℕ × α)))
    (avgdl : α) (qTerms : List String) (topK : ℤ) (k1 b : α) (usePlus : Bool) (delta : α)
    (h : avgdl ≤ 0) :
    searchBm25 lg N dfOf invLen postings avgdl qTerms topK k1 b usePlus delta = [] := by
  by_cases hq : qTerms = [] <;> simp [searchBm25, hq, h]

/-- Witness for C8: a non-empty query against a non-empty posting source with
`avgdl = 0` returns the empty result. -/
theorem bm25_degenerate_avgdl_witness :
    (0 : ℚ) ≤ 0 ∧
    searchBm25 (α := ℚ) id 5 (fun _ => 1) (fun _ => 1) (fun _ => some [(1, 1)]) 0 ["x"] 10
      (9 / 5) (1 / 10) false 1 = [] :=
  ⟨le_refl 0,
    bm25_degenerate_avgdl id 5 (fun _ => 1) (fun _ => 1) (fun _ => some [(1, 1)]) 0 ["x"] 10
      (9 / 5) (1 / 10) false 1 (le_refl 0)⟩

/-- Claim C5: min-max normalization maps every value of a non-empty signal
map into the closed interval [0,1] (as `(v - min)/(max - min)`); if all raw
values are equal, every candidate maps to exactly `0.0`; the empty map
normalizes to the empty map. -/
theorem minmax_norm_bounds {α : Type*} [LinearOrderedField α] (m : List (ℕ × α)) :
    (minmaxNorm ([] : List (ℕ × α)) = []) ∧
    (∀ p ∈ minmaxNorm m, 0 ≤ p.2 ∧ p.2 ≤ 1) ∧
    ((∀ p ∈ m, ∀ q ∈ m, p.2 = q.2) → ∀ p ∈ minmaxNorm m, p.2 = 0) := by
  refine ⟨rfl, ?_, ?_⟩
  · cases m with
    | nil => intro p hp; cases hp
    | cons hd rest =>
      obtain ⟨k0, v0⟩ := hd
      intro p hp
      simp only [minmaxNorm] at hp
      by_cases h : (rest.map Prod.snd).foldl max v0 = (rest.map Prod.snd).foldl min v0
      · rw [if_pos h] at hp
        rcases List.mem_map.mp hp with ⟨q, _, rfl⟩
        exact ⟨le_refl 0, zero_le_one⟩
      · rw [if_neg h] at hp
        rcases List.mem_map.mp hp with ⟨q, hq, rfl⟩
        have hqmn : (rest.map Prod.snd).foldl min v0 ≤ q.2 := by
          rcases List.mem_cons.mp hq with rfl | hq2
          · exact foldl_min_le_init _ _
          · exact foldl_min_le_mem (List.mem_map.mpr ⟨q, hq2, rfl⟩) _
        have hqmx : q.2 ≤ (rest.map Prod.snd).foldl max v0 := by
          rcases List.mem_cons.mp hq with rfl | hq2
          · exact init_le_foldl_max _ _
          · exact mem_le_foldl_max (List.mem_map.mpr ⟨q, hq2, rfl⟩) _
        have hlt : (rest.map Prod.snd).foldl min v0 < (rest.map Prod.snd).foldl max v0 :=
          lt_of_le_of_ne ((foldl_min_le_init _ _).trans (init_le_foldl_max _ _))
            (fun e => h e.symm)
        constructor
        · exact div_nonneg (sub_nonneg.mpr hqmn) (sub_pos.mpr hlt).le
        · exact (div_le_one (sub_pos.mpr hlt)).mpr (sub_le_sub_right hqmx _)
  · cases m with
    | nil => intro _ p hp; cases hp
    | cons hd rest =>
      obtain ⟨k0, v0⟩ := hd
      intro hall p hp
      have hv : ∀ a ∈ rest.map Prod.snd, a = v0 := by
        intro a ha
        rcases List.mem_map.mp ha with ⟨q, hq, rfl⟩
        exact hall q (List.mem_cons_of_mem _ hq) (k0, v0) (List.mem_cons_self _ _)
      have hmn : (rest.map Prod.snd).foldl min v0 = v0 :=
        le_antisymm (foldl_min_le_init _ _)
          (le_foldl_min (fun a ha => (hv a ha).ge) le_rfl)
      have hmx : (rest.map Prod.snd).foldl max v0 = v0 :=
        le_antisymm (foldl_max_le (fun a ha => (hv a ha).le) le_rfl)
          (init_le_foldl_max _ _)
      simp only [minmaxNorm] at hp
      rw [if_pos (hmx.trans hmn.symm)] at hp
      rcases List.mem_map.mp hp with ⟨q, _, rfl⟩
      rfl

/-- Witness for C5: the map `{1: 2, 2: 4}` normalizes to `{1: 0, 2: 1}`; the
normalized entry `(1, 0)` is inside the bounds. -/
theorem minmax_norm_bounds_witness :
    ((1 : ℕ), (0 : ℚ)) ∈ minmaxNorm [((1 : ℕ), (2 : ℚ)), (2, 4)] ∧
    (0 : ℚ) ≤ ((1 : ℕ), (0 : ℚ)).2 ∧ ((1 : ℕ), (0 : ℚ)).2 ≤ 1 := by
  have hmm : minmaxNorm [((1 : ℕ), (2 : ℚ)), (2, 4)] = [(1, 0), (2, 1)] := by
    norm_num [minmaxNorm]
  refine ⟨?_, ?_⟩
  · rw [hmm]
    exact List.mem_cons_self _ _
  · exact (minmax_norm_bounds [((1 : ℕ), (2 : ℚ)), (2, 4)]).2.1 ((1 : ℕ), (0 : ℚ))
      (by rw [hmm]; exact List.mem_cons_self _ _)

/-- Claim C6: every candidate's fused score is the sum over the five signals
of `weight * normalized value`, with `0.0` for a signal missing the
candidate; in particular a candidate present only in the anchor signal with
zero authority and popularity (in everywhere-nonnegative metadata signals)
scores exactly `w.anchor * normalized anchor value`. -/
theorem hybrid_fused_score {α : Type*} [LinearOrderedField α] (w : Weights α)
    (bodyS titleS anchorS : List (ℕ × α)) (pr pv : ℕ → α) (d : ℕ) :
    (∀ (nb nt na npr npv : List (ℕ × α)) (cands : List ℕ), d ∈ cands →
      alookup (finalScoreMap w nb nt na npr npv cands) d =
        some (w.body * getOrZero nb d + w.title * getOrZero nt d
          + w.anchor * getOrZero na d + w.pagerank * getOrZero npr d
          + w.pageviews * getOrZero npv d)) ∧
    (alookup bodyS d = none → alookup titleS d = none → d ∈ anchorS.map Prod.fst →
      pr d = 0 → pv d = 0 → (∀ c, 0 ≤ pr c) → (∀ c, 0 ≤ pv c) →
      alookup
        (finalScoreMap w (minmaxNorm bodyS) (minmaxNorm titleS) (minmaxNorm anchorS)
          (minmaxNorm (buildMetaMap pr (candidateSet bodyS titleS anchorS)))
          (minmaxNorm (buildMetaMap pv (candidateSet bodyS titleS anchorS)))
          (candidateSet bodyS titleS anchorS)) d =
        some (w.anchor * getOrZero (minmaxNorm anchorS) d)) := by
  have hgen : ∀ (nb nt na npr npv : List (ℕ × α)) (cands : List ℕ), d ∈ cands →
      alookup (finalScoreMap w nb nt na npr npv cands) d =
        some (w.body * getOrZero nb d + w.title * getOrZero nt d
          + w.anchor * getOrZero na d + w.pagerank * getOrZero npr d
          + w.pageviews * getOrZero npv d) := by
    intro nb nt na npr npv cands hdc
    exact alookup_map_key
      (fun c => w.body * getOrZero nb c + w.title * getOrZero nt c
        + w.anchor * getOrZero na c + w.pagerank * getOrZero npr c
        + w.pageviews * getOrZero npv c) cands d hdc
  refine ⟨hgen, ?_⟩
  intro hb ht ha hpr0 hpv0 hprnn hpvnn
  have hdc : d ∈ candidateSet bodyS titleS anchorS := by
    unfold candidateSet
    exact List.mem_dedup.mpr (List.mem_append.mpr (Or.inr ha))
  rw [hgen _ _ _ _ _ _ hdc, getOrZero_minmax_absent bodyS d hb,
    getOrZero_minmax_absent titleS d ht,
    getOrZero_minmax_zero_at pr _ d hdc hpr0 hprnn,
    getOrZero_minmax_zero_at pv _ d hdc hpv0 hpvnn]
  congr 1
  ring

/-- Witness for C6: candidate 5 appears only in the anchor map
`{5: 2, 9: 7}`, the metadata signals are identically zero, and its fused
score is `w.anchor * normalized anchor value`. -/
theorem hybrid_fused_score_witness :
    ((5 : ℕ) ∈ [((5 : ℕ), (2 : ℚ)), (9, 7)].map Prod.fst) ∧
    alookup
      (finalScoreMap defaultWeights (minmaxNorm ([] : List (ℕ × ℚ)))
        (minmaxNorm ([] : List (ℕ × ℚ))) (minmaxNorm [((5 : ℕ), (2 : ℚ)), (9, 7)])
        (minmaxNorm (buildMetaMap (fun _ => 0)
          (candidateSet ([] : List (ℕ × ℚ)) ([] : List (ℕ × ℚ)) [((5 : ℕ), (2 : ℚ)), (9, 7)])))
        (minmaxNorm (buildMetaMap (fun _ => 0)
          (candidateSet ([] : List (ℕ × ℚ)) ([] : List (ℕ × ℚ)) [((5 : ℕ), (2 : ℚ)), (9, 7)])))
        (candidateSet ([] : List (ℕ × ℚ)) ([] : List (ℕ × ℚ)) [((5 : ℕ), (2 : ℚ)), (9, 7)])) 5 =
      some (defaultWeights.anchor * getOrZero (minmaxNorm [((5 : ℕ), (2 : ℚ)), (9, 7)]) 5) :=
  ⟨by decide,
    (hybrid_fused_score defaultWeights [] [] [((5 : ℕ), (2 : ℚ)), (9, 7)] (fun _ => 0)
        (fun _ => 0) 5).2 rfl rfl (by decide) rfl rfl (fun _ => le_refl 0) (fun _ => le_refl 0)⟩

/-- Claim C7: for `top_k > 0` the hybrid ranking is in descending order of
fused score with ties broken by ascending document id, contains at most
`top_k` entries, and only documents from the candidate set. -/
theorem hybrid_topk_ranking {α : Type*} [LinearOrderedField α] (w : Weights α)
    (bodyS titleS anchorS : List (ℕ × α)) (pr pv : ℕ → α) (k : ℤ) (hk : 0 < k) :
    List.Pairwise (fun x y : ℕ × α => y.2 < x.2 ∨ (x.2 = y.2 ∧ x.1 < y.1))
      (hybridFuse w bodyS titleS anchorS pr pv k) ∧
    (hybridFuse w bodyS titleS anchorS pr pv k).length ≤ k.toNat ∧
    ∀ p ∈ hybridFuse w bodyS titleS anchorS pr pv k,
      p.1 ∈ candidateSet bodyS titleS anchorS := by
  unfold hybridFuse
  by_cases hc : candidateSet bodyS titleS anchorS = []
  · simp [hc]
  · rw [if_neg hc]
    have hnd : ((finalScoreMap w (minmaxNorm bodyS) (minmaxNorm titleS) (minmaxNorm anchorS)
        (minmaxNorm (buildMetaMap pr (candidateSet bodyS titleS anchorS)))
        (minmaxNorm (buildMetaMap pv (candidateSet bodyS titleS anchorS)))
        (candidateSet bodyS titleS anchorS)).map Prod.fst).Nodup := by
      rw [finalScoreMap_keys]
      exact List.nodup_dedup _
    obtain ⟨h1, h2, h3⟩ := topKSelect_spec k _ hnd
    refine ⟨h1, h2, ?_⟩
    intro p hp
    have hpin := h3 p hp
    have : p.1 ∈ (finalScoreMap w (minmaxNorm bodyS) (minmaxNorm titleS) (minmaxNorm anchorS)
        (minmaxNorm (buildMetaMap pr (candidateSet bodyS titleS anchorS)))
        (minmaxNorm (buildMetaMap pv (candidateSet bodyS titleS anchorS)))
        (candidateSet bodyS titleS anchorS)).map Prod.fst :=
      List.mem_map_of_mem Prod.fst hpin
    rwa [finalScoreMap_keys] at this

/-- Witness for C7: a two-candidate fusion with `top_k = 2` yields a ranking
whose documents all come from the candidate set. -/
theorem hybrid_topk_ranking_witness :
    (0 : ℤ) < 2 ∧
    ∀ p ∈ hybridFuse defaultWeights [((1 : ℕ), (2 : ℚ))] [] [(2, 3)]
        (fun _ => 0) (fun _ => 0) 2,
      p.1 ∈ candidateSet [((1 : ℕ), (2 : ℚ))] ([] : List (ℕ × ℚ)) [(2, 3)] :=
  ⟨by decide,
    (hybrid_topk_ranking defaultWeights [((1 : ℕ), (2 : ℚ))] [] [(2, 3)] (fun _ => 0)
        (fun _ => 0) 2 (by decide)).2.2⟩

/-- Claim C2 (refuted by the code): when the body scorer fails
(`Except.error`), the hybrid engine returns the error — the `future.result()`
call re-raises it — instead of degrading the failed signal to an empty map:
the very same inputs with the failure replaced by an empty body signal would
have produced the ranking `[(1, "t")]`. -/
theorem hybrid_abort_on_signal_failure :
    hybridSearch (α := ℚ) defaultWeights (Except.error ()) (Except.ok [(1, 1)])
        (Except.ok []) (fun _ => 0) (fun _ => 0) 400 400 100 (fun _ => "t") =
      Except.error () ∧
    hybridSearch (α := ℚ) defaultWeights (Except.ok []) (Except.ok [(1, 1)])
        (Except.ok []) (fun _ => 0) (fun _ => 0) 400 400 100 (fun _ => "t") =
      Except.ok [(1, "t")] ∧
    (Except.error () : Except Unit (List (ℕ × String))) ≠ Except.ok [(1, "t")] :=
  ⟨rfl, rfl, fun h => Except.noConfusion h⟩

/-- Claim C2 amended: a stage-1 scorer returning an empty result is treated
as an empty signal map and the remaining signals still produce the ranking,
but a scorer that raises an exception aborts the whole query (the error
propagates through `future.result()`; fail-soft exists only per term inside
the scorers). -/
theorem hybrid_signal_failure_behavior {α : Type*} [LinearOrderedField α] (w : Weights α)
    (tRes aRes : Except Unit (List (ℕ × α))) (bodyS titleS anchorS : List (ℕ × α))
    (pr pv : ℕ → α) (tk ak k : ℤ) (titleOf : ℕ → String) (e : Unit) :
    (hybridSearch w (Except.error e) tRes aRes pr pv tk ak k titleOf = Except.error e) ∧
    (hybridSearch w (Except.ok bodyS) (Except.error e) aRes pr pv tk ak k titleOf =
      Except.error e) ∧
    (hybridSearch w (Except.ok bodyS) (Except.ok titleS) (Except.error e) pr pv tk ak k
      titleOf = Except.error e) ∧
    (hybridSearch w (Except.ok []) (Except.ok titleS) (Except.ok anchorS) pr pv tk ak k
      titleOf =
      Except.ok ((hybridFuse w [] (truncateRanked tk titleS) (truncateRanked ak anchorS)
        pr pv k).map fun p => (p.1, titleOf p.1))) :=
  ⟨rfl, rfl, rfl, rfl⟩

/-- Claim C9 (refuted as stated): with the accepted parameter value
`k1 = -1/2` (and `b = 0`, `N = 10`, `df = 1`, unit lengths), the BM25
contribution at `tf = 2` is strictly smaller than at `tf = 1`: the
contribution is not monotone in `tf` for arbitrary fixed parameters. -/
theorem bm25_tf_not_monotone :
    (alookup (bm25TermContrib (α := ℝ) Real.log 10 1 (fun _ => 1) (some [(0, 2)]) 1
        (-(1 / 2)) 0 false 0) 0).getD 0 <
    (alookup (bm25TermContrib (α := ℝ) Real.log 10 1 (fun _ => 1) (some [(0, 1)]) 1
        (-(1 / 2)) 0 false 0) 0).getD 0 := by
  rw [bm25_single_eval (α := ℝ) Real.log 10 1 0 (fun _ => 1) 2 1 (-(1 / 2)) 0 0 false
      (by norm_num) (by norm_num) (by norm_num),
    bm25_single_eval (α := ℝ) Real.log 10 1 0 (fun _ => 1) 1 1 (-(1 / 2)) 0 0 false
      (by norm_num) (by norm_num) (by norm_num)]
  have hlog : 0 < bm25Idf (α := ℝ) Real.log 10 1 := by
    rw [bm25Idf]
    apply Real.log_pos
    norm_num
  simp only [Option.getD_some]
  norm_num
  nlinarith [hlog]

/-- Claim C9 amended: for nonnegative `k1`, `b ∈ [0,1]`, positive `avgdl`,
positive stored inverse length and `df ≤ N` (all true for the engine's
parameter defaults and any consistent corpus), the BM25 per-posting
contribution is monotonically non-decreasing in `tf` whenever the posting
passes the denominator guard. -/
theorem bm25_tf_monotone (N df d : ℕ) (invL avgdl k1 b delta tf1 tf2 : ℝ) (usePlus : Bool)
    (hdf : 0 < df) (hdfN : df ≤ N) (hk1 : 0 ≤ k1) (hb0 : 0 ≤ b) (hb1 : b ≤ 1)
    (havg : 0 < avgdl) (hinv : 0 < invL) (h12 : tf1 ≤ tf2)
    (hden1 : 0 < tf1 + k1 * ((1 - b) + b * ((1 / invL) / avgdl))) :
    (alookup (bm25TermContrib Real.log N df (fun _ => invL) (some [(d, tf1)]) avgdl k1 b
        usePlus delta) d).getD 0 ≤
    (alookup (bm25TermContrib Real.log N df (fun _ => invL) (some [(d, tf2)]) avgdl k1 b
        usePlus delta) d).getD 0 := by
  have hnrm : (0 : ℝ) ≤ (1 - b) + b * ((1 / invL) / avgdl) := by
    have h1 : (0 : ℝ) ≤ 1 - b := by linarith
    have h2 : (0 : ℝ) ≤ b * ((1 / invL) / avgdl) := by positivity
    linarith
  have hden2 : 0 < tf2 + k1 * ((1 - b) + b * ((1 / invL) / avgdl)) := by linarith
  rw [bm25_single_eval Real.log N df d (fun _ => invL) tf1 avgdl k1 b delta usePlus
      hdf hinv hden1,
    bm25_single_eval Real.log N df d (fun _ => invL) tf2 avgdl k1 b delta usePlus
      hdf hinv hden2]
  simp only [Option.getD_some]
  have hidf : 0 ≤ bm25Idf (α := ℝ) Real.log N df := by
    rw [bm25Idf]
    apply Real.log_nonneg
    have hcast : (df : ℝ) ≤ (N : ℝ) := Nat.cast_le.mpr hdfN
    have hnum : (0 : ℝ) ≤ (N : ℝ) - (df : ℝ) + 1 / 2 := by linarith
    have hpos : (0 : ℝ) < (df : ℝ) + 1 / 2 := by positivity
    have := div_nonneg hnum hpos.le
    linarith
  have hbase : tf1 * (k1 + 1) / (tf1 + k1 * ((1 - b) + b * ((1 / invL) / avgdl))) ≤
      tf2 * (k1 + 1) / (tf2 + k1 * ((1 - b) + b * ((1 / invL) / avgdl))) := by
    rw [div_le_div_iff hden1 hden2]
    nlinarith [mul_nonneg hk1 hnrm, sub_nonneg.mpr h12,
      mul_nonneg (mul_nonneg (by linarith : (0 : ℝ) ≤ k1 + 1) (mul_nonneg hk1 hnrm))
        (sub_nonneg.mpr h12)]
  exact mul_le_mul_of_nonneg_left
    (add_le_add_right hbase (if usePlus then delta else 0)) hidf

/-- Witness for C9 (amended): with the engine defaults `k1 = 1.8`, `b = 0.1`
and BM25+ `delta = 1`, the contribution at `tf = 1` is at most the one at
`tf = 2`. -/
theorem bm25_tf_monotone_witness :
    (0 : ℝ) < 1 ∧
    (alookup (bm25TermContrib Real.log 10 2 (fun _ => 1) (some [(0, 1)]) 1 (9 / 5) (1 / 10)
        true 1) 0).getD 0 ≤
    (alookup (bm25TermContrib Real.log 10 2 (fun _ => 1) (some [(0, 2)]) 1 (9 / 5) (1 / 10)
        true 1) 0).getD 0 :=
  ⟨by norm_num,
    bm25_tf_monotone 10 2 0 1 1 (9 / 5) (1 / 10) 1 1 2 true (by norm_num) (by norm_num)
      (by norm_num) (by norm_num) (by norm_num) (by norm_num) (by norm_num) (by norm_num)
      (by norm_num)⟩

/-- Claim C10: the hybrid entry point treats `top_k ≤ 0` as "select nothing"
(`heapq.nlargest` of a non-positive count) and returns the empty list even on
a non-empty candidate set, in contrast with the body scorer, where
`top_k ≤ 0` disables truncation and the full ranked list is returned. -/
theorem hybrid_topk_nonpositive {α : Type*} [LinearOrderedField α] (w : Weights α)
    (bodyS titleS anchorS : List (ℕ × α)) (pr pv : ℕ → α) (tk ak k : ℤ)
    (titleOf : ℕ → String) (lg : α → α) (N : ℕ) (dfOf : String → ℕ) (invLen : ℕ → α)
    (postings : String → Option (List (ℕ × α))) (avgdl : α) (qTerms : List String)
    (k1 b : α) (usePlus : Bool) (delta : α)
    (hk : k ≤ 0)
    (hcand : candidateSet bodyS (truncateRanked tk titleS) (truncateRanked ak anchorS) ≠ [])
    (hq : qTerms ≠ []) (havg : 0 < avgdl) :
    hybridSearch w (Except.ok bodyS) (Except.ok titleS) (Except.ok anchorS) pr pv tk ak k
      titleOf = Except.ok [] ∧
    searchBm25 lg N dfOf invLen postings avgdl qTerms k k1 b usePlus delta =
      sortRanked (bm25Aggregate lg N dfOf invLen postings avgdl k1 b usePlus delta qTerms) := by
  constructor
  · show Except.ok ((hybridFuse w bodyS (truncateRanked tk titleS)
        (truncateRanked ak anchorS) pr pv k).map fun p => (p.1, titleOf p.1)) = Except.ok []
    unfold hybridFuse
    rw [if_neg hcand]
    rw [topKSelect, Int.toNat_of_nonpos hk, List.take_zero]
    rfl
  · unfold searchBm25
    rw [if_neg hq, if_neg havg.not_le]
    by_cases hs : bm25Aggregate lg N dfOf invLen postings avgdl k1 b usePlus delta qTerms = []
    · rw [if_pos hs, hs]
      rfl
    · rw [if_neg hs, if_neg (not_lt.mpr hk)]

/-- Witness for C10: with `top_k = 0`, a singleton candidate set and a
one-term query, the hybrid engine returns no results while the body scorer
returns its full (unsorted-length) ranking. -/
theorem hybrid_topk_nonpositive_witness :
    (0 : ℤ) ≤ 0 ∧
    hybridSearch (α := ℚ) defaultWeights (Except.ok [(1, 1)]) (Except.ok [])
      (Except.ok []) (fun _ => 0) (fun _ => 0) 400 400 0 (fun _ => "t") = Except.ok [] :=
  ⟨le_refl 0,
    (hybrid_topk_nonpositive defaultWeights [(1, 1)] [] [] (fun _ => 0) (fun _ => 0) 400 400 0
      (fun _ => "t") id 5 (fun _ => 1) (fun _ => 1) (fun _ => some [(1, 1)]) 1 ["x"] (9 / 5)
      (1 / 10) false 1 (le_refl 0) (by decide) (by decide) (by norm_num)).1⟩

end WikiSearch
